import Mathlib

set_option maxRecDepth 200000

/-!
Verification of the signal-curation core of `active-info-daily`, shallowly
embedded from the Python sources:

* `src/active_info/dedupe.py`    — near-duplicate merging,
* `src/active_info/scoring.py`   — heuristic / LLM-assisted scoring,
* `src/active_info/pipeline.py`  — novelty penalties, front-slot capping,
  narrative-line suppression, per-source capping,
* `src/active_info/reporting.py` — fuzzy attribution of narrative lines.

Strings are modelled as Lean `String` / `List Char` (Python `str.lower` is
modelled as ASCII lowering; the repository's data is ASCII plus CJK, and CJK
code points are unaffected by lowering).  Python floats are modelled as `ℚ`
with the exact decimal constants from the source (the spec's design notes
state the thresholds are tunable, not bit-level contracts).  `difflib
.SequenceMatcher.ratio()` (with `isjunk=None`) is modelled exactly, including
the `autojunk` popularity rule for sequences of length ≥ 200.
-/

/-! ## Basic string utilities -/

/-- Lowercase a character list (models `str.lower` on ASCII; CJK unchanged). -/
def lowerList (s : List Char) : List Char :=
  s.map Char.toLower

/-- Lowercase a string. -/
def lowerStr (s : String) : String :=
  ⟨lowerList s.data⟩

/-- Strip leading and trailing whitespace (models `str.strip()`). -/
def trimChars (s : List Char) : List Char :=
  ((s.dropWhile Char.isWhitespace).reverse.dropWhile Char.isWhitespace).reverse

/-- Strip a string (models `str.strip()`). -/
def strTrim (s : String) : String :=
  ⟨trimChars s.data⟩

/-- Boolean test that `pat` is a leading segment of `s`. -/
def startsSeq : List Char → List Char → Bool
  | [], _ => true
  | _ :: _, [] => false
  | a :: as, b :: bs => a == b && startsSeq as bs

/-- Boolean test that `pat` occurs contiguously inside `s`
(models Python's `pat in s` on strings). -/
def containsSeq (pat : List Char) : List Char → Bool
  | [] => pat.isEmpty
  | c :: rest => startsSeq pat (c :: rest) || containsSeq pat rest

/-- Substring test on strings (models Python `pat in s`). -/
def strContains (s pat : String) : Bool :=
  containsSeq pat.data s.data

/-- Maximal runs of characters satisfying `p`, in order (used to model
`re.findall` on character-class-plus patterns). -/
def runsOf (p : Char → Bool) (s : List Char) : List (List Char) :=
  (s.foldr
    (fun c acc =>
      if p c then
        match acc with
        | [] => [[c]]
        | w :: ws => (c :: w) :: ws
      else [] :: acc)
    []).filter (fun w => !w.isEmpty)

/-- Append an element unless already present (set-insert with stable order). -/
def addUnique (acc : List (List Char)) (t : List Char) : List (List Char) :=
  if t ∈ acc then acc else acc ++ [t]

/-- Deduplicate, keeping first occurrences (models building a Python `set`;
only membership matters downstream). -/
def dedupTokens (ts : List (List Char)) : List (List Char) :=
  ts.foldl addUnique []

/-! ## The `difflib.SequenceMatcher` model

Models `SequenceMatcher(None, a, b).ratio()` from CPython's `difflib`:
`b2j` excludes "popular" elements when `len(b) ≥ 200` (autojunk), the
longest-match scan keeps the first maximum in `(i, j)` scan order, the match
is then extended over equal elements, and `ratio = 2·M/(len a + len b)` where
`M` sums the recursively collected matching blocks. -/

/-- Autojunk popularity rule of `SequenceMatcher.__chain_b`: an element of `b`
is dropped from `b2j` when `len(b) ≥ 200` and it occurs more than
`len(b)//100 + 1` times. -/
def popularChar (b : List Char) (c : Char) : Bool :=
  decide (200 ≤ b.length) && decide (b.length / 100 + 1 < b.count c)

/-- Cell match used by the `j2len` dynamic program: characters at `i`/`j`
exist, are equal, and the `b` character is not popularity-junked. -/
def matchCell (a b : List Char) (i j : Nat) : Bool :=
  match a[i]?, b[j]? with
  | some x, some y => x == y && !popularChar b y
  | _, _ => false

/-- Length of the matching run ending at `(i, j)` and confined to indices
`≥ alo` / `≥ blo` (the value `j2len[j]` of row `i` in `find_longest_match`). -/
def runLen (a b : List Char) (alo blo : Nat) : Nat → Nat → Nat
  | 0, j => if matchCell a b 0 j then 1 else 0
  | i + 1, j =>
    if matchCell a b (i + 1) j then
      if alo < i + 1 ∧ blo < j then runLen a b alo blo i (j - 1) + 1 else 1
    else 0

/-- All `(i, j)` pairs of the window, in the scan order of the nested loops of
`find_longest_match` (`i` ascending outer, `j` ascending inner). -/
def smPairs (alo ahi blo bhi : Nat) : List (Nat × Nat) :=
  (List.range' alo (ahi - alo)).flatMap
    (fun i => (List.range' blo (bhi - blo)).map (fun j => (i, j)))

/-- Scan loop of the dynamic-programming phase: update the best block on a
strictly larger run length (`if k > bestsize`). -/
def smBestGo (a b : List Char) (alo blo : Nat) :
    List (Nat × Nat) → Nat × Nat × Nat → Nat × Nat × Nat
  | [], best => best
  | p :: rest, best =>
    let k := runLen a b alo blo p.1 p.2
    if best.2.2 < k then smBestGo a b alo blo rest (p.1 + 1 - k, p.2 + 1 - k, k)
    else smBestGo a b alo blo rest best

/-- The dynamic-programming phase of `find_longest_match`: the first block (in
scan order) attaining the maximal run length, as `(besti, bestj, bestsize)`. -/
def smBest (a b : List Char) (alo ahi blo bhi : Nat) : Nat × Nat × Nat :=
  smBestGo a b alo blo (smPairs alo ahi blo bhi) (alo, blo, 0)

/-- Plain equality of existing cells (extension steps, where `isbjunk` is
always false because `isjunk=None`). -/
def cellEq (a b : List Char) (i j : Nat) : Bool :=
  match a[i]?, b[j]? with
  | some x, some y => x == y
  | _, _ => false

/-- Leftward extension loop of `find_longest_match`. -/
def extLeft (a b : List Char) (alo blo : Nat) : Nat → Nat → Nat → Nat × Nat × Nat
  | 0, j, k => (0, j, k)
  | i + 1, 0, k => (i + 1, 0, k)
  | i + 1, j + 1, k =>
    if alo ≤ i ∧ blo ≤ j ∧ cellEq a b i j then
      extLeft a b alo blo i j (k + 1)
    else (i + 1, j + 1, k)

/-- Rightward extension loop of `find_longest_match` (fuelled; the fuel bounds
the number of extension steps and any value ≥ `ahi` is enough). -/
def extRight (a b : List Char) (ahi bhi i j : Nat) : Nat → Nat → Nat
  | k, 0 => k
  | k, fuel + 1 =>
    if i + k < ahi ∧ j + k < bhi ∧ cellEq a b (i + k) (j + k) then
      extRight a b ahi bhi i j (k + 1) fuel
    else k

/-- The full `find_longest_match(alo, ahi, blo, bhi)`. -/
def smFindLongest (a b : List Char) (alo ahi blo bhi : Nat) : Nat × Nat × Nat :=
  let best := smBest a b alo ahi blo bhi
  let left := extLeft a b alo blo best.1 best.2.1 best.2.2
  (left.1, left.2.1, extRight a b ahi bhi left.1 left.2.1 left.2.2 (ahi + 1))

/-- Total size of all matching blocks of the window (the sum over
`get_matching_blocks`), fuelled: each recursive window is strictly narrower in
`a`, so fuel `a.length + 1` is exact for the top-level call. -/
def smMatchTotal (a b : List Char) : Nat → Nat → Nat → Nat → Nat → Nat
  | 0, _, _, _, _ => 0
  | fuel + 1, alo, ahi, blo, bhi =>
    let m := smFindLongest a b alo ahi blo bhi
    if m.2.2 = 0 then 0
    else
      m.2.2 +
        (if alo < m.1 ∧ blo < m.2.1 then
          smMatchTotal a b fuel alo m.1 blo m.2.1
        else 0) +
        (if m.1 + m.2.2 < ahi ∧ m.2.1 + m.2.2 < bhi then
          smMatchTotal a b fuel (m.1 + m.2.2) ahi (m.2.1 + m.2.2) bhi
        else 0)

/-- Models `SequenceMatcher(None, a, b).ratio()` as an exact rational. -/
def seqRatio (a b : List Char) : ℚ :=
  let total := a.length + b.length
  if total = 0 then 1
  else (2 * smMatchTotal a b (a.length + 1) 0 a.length 0 b.length : ℚ) / total

/-! ## Data model (`models.py`) -/

/-- Models `NewsItem` from `models.py`.  `published_at` timestamps are
modelled as naturals with the order of `datetime` comparison; `score` is an
exact rational. -/
structure NewsItem where
  title : String
  url : String
  source : String
  category : String
  published_at : Option Nat := none
  summary : String := ""
  score : ℚ := 0
deriving DecidableEq

/-- Models `AnalysisResult` from `models.py`. -/
structure AnalysisResult where
  overview : String
  breakthroughs : List String := []
  investment_signals : List String := []
  overlooked_trends : List String := []
  watchlist : List String := []
deriving DecidableEq

/-- The `stats` dictionary returned by `dedupe_items`. -/
structure DedupStats where
  raw_items : Nat
  unique_items : Nat
  duplicates_removed : Nat
deriving DecidableEq

/-! ## Dedup engine (`dedupe.py`) -/

/-- Word character of Python's Unicode `\w` restricted to the alphabets this
repository's data uses: ASCII alphanumerics, underscore, and CJK ideographs. -/
def isWordChar (c : Char) : Bool :=
  c.isAlphanum || c == '_' || (decide (0x4e00 ≤ c.val) && decide (c.val ≤ 0x9fff))

/-- One step result of scanning for `https?://\S+`: if the list starts with a
URL match, return the remainder after the matched span. -/
def urlMatchTail (s : List Char) : Option (List Char) :=
  let after :=
    if startsSeq "https://".data s then some (s.drop 8)
    else if startsSeq "http://".data s then some (s.drop 7)
    else none
  match after with
  | none => none
  | some rest =>
    let span := rest.takeWhile (fun c => !c.isWhitespace)
    if span.isEmpty then none else some (rest.dropWhile (fun c => !c.isWhitespace))

/-- Replace every match of `https?://\S+` by a single space
(models `re.sub(r"https?://\S+", " ", s)`); fuelled left-to-right scan, each
step consumes at least one character so fuel `s.length` is enough. -/
def stripUrlsGo : Nat → List Char → List Char
  | 0, _ => []
  | _, [] => []
  | fuel + 1, c :: rest =>
    match urlMatchTail (c :: rest) with
    | some rest' => ' ' :: stripUrlsGo fuel rest'
    | none => c :: stripUrlsGo fuel rest

/-- Models `re.sub(r"https?://\S+", " ", s)`. -/
def stripUrls (s : List Char) : List Char :=
  stripUrlsGo s.length s

/-- Models `_normalize_title` of `dedupe.py`: lowercase, blank out URLs,
replace non-word non-space characters by spaces, collapse whitespace. -/
def normalizeTitle (title : String) : List Char :=
  let lowered := stripUrls (lowerList title.data)
  let depunct := lowered.map (fun c => if isWordChar c || c.isWhitespace then c else ' ')
  List.intercalate [' '] (runsOf (fun c => !c.isWhitespace) depunct)

/-- Scheme characters accepted by `urllib.parse` after the leading letter. -/
def isSchemeChar (c : Char) : Bool :=
  c.isAlphanum || c == '+' || c == '-' || c == '.'

/-- Split a URL into `(scheme, netloc, path)` following `urllib.parse.urlparse`
for the absolute-URL shapes this repository handles: the fragment is cut at
the first `#`, a scheme is recognised before the first `:` when it starts with
a letter and continues with scheme characters, a netloc follows `//` up to the
next `/` or `?`, and the query is cut at the first `?`. -/
def urlparseModel (url : String) : List Char × List Char × List Char :=
  let s := (url.data.takeWhile (fun c => c ≠ '#'))
  let pre := s.takeWhile (fun c => c ≠ ':')
  let hasScheme :=
    decide (pre.length < s.length) && !pre.isEmpty &&
      (match pre with
       | [] => false
       | c :: cs => c.isAlpha && cs.all isSchemeChar)
  let scheme := if hasScheme then lowerList pre else []
  let rest := if hasScheme then s.drop (pre.length + 1) else s
  if startsSeq "//".data rest then
    let after := rest.drop 2
    let netloc := after.takeWhile (fun c => c ≠ '/' ∧ c ≠ '?')
    let pathq := after.dropWhile (fun c => c ≠ '/' ∧ c ≠ '?')
    (scheme, netloc, pathq.takeWhile (fun c => c ≠ '?'))
  else
    (scheme, [], rest.takeWhile (fun c => c ≠ '?'))

/-- Drop trailing `/` characters (models `str.rstrip("/")`). -/
def rstripSlash (s : List Char) : List Char :=
  (s.reverse.dropWhile (fun c => c = '/')).reverse

/-- Models `_canonical_url` of `dedupe.py`: empty unless both scheme and
netloc are present, otherwise `lower(netloc) + lower(rstrip(path, "/"))`. -/
def canonicalUrl (url : String) : String :=
  if url = "" then ""
  else
    let parsed := urlparseModel url
    if parsed.1 = [] ∨ parsed.2.1 = [] then ""
    else ⟨lowerList parsed.2.1 ++ lowerList (rstripSlash parsed.2.2)⟩

/-- Models `_is_duplicate(a, b)` of `dedupe.py`.  Note it reads only the
`url` and `title` fields of its arguments. -/
def isDuplicate (a b : NewsItem) : Bool :=
  let aUrl := canonicalUrl a.url
  let bUrl := canonicalUrl b.url
  if aUrl ≠ "" ∧ bUrl ≠ "" ∧ aUrl = bUrl then true
  else
    let aTitle := normalizeTitle a.title
    let bTitle := normalizeTitle b.title
    if aTitle = [] ∨ bTitle = [] then false
    else if aTitle = bTitle then true
    else decide (93 / 100 ≤ seqRatio aTitle bTitle)

/-- The in-place merge of a duplicate `item` into the surviving `existing`
record (`dedupe_items` loop body): adopt the longer summary, fill an empty
url, adopt a strictly later (or previously missing) `published_at`. -/
def mergeInto (existing item : NewsItem) : NewsItem :=
  { existing with
    summary :=
      if existing.summary.data.length < item.summary.data.length then item.summary
      else existing.summary
    url := if existing.url = "" ∧ item.url ≠ "" then item.url else existing.url
    published_at :=
      match item.published_at, existing.published_at with
      | some p, none => some p
      | some p, some q => if q < p then some p else some q
      | none, q => q }

/-- Merge `item` into the first member of the accepted-unique list that it
duplicates, if any (the inner scan of `dedupe_items`). -/
def mergeFirstDup (item : NewsItem) : List NewsItem → Option (List NewsItem)
  | [] => none
  | seen :: rest =>
    if isDuplicate item seen then some (mergeInto seen item :: rest)
    else (mergeFirstDup item rest).map (fun l => seen :: l)

/-- The main loop of `dedupe_items`, threading the accepted-unique list and
the removed-duplicates counter. -/
def dedupeLoop (unique : List NewsItem) (removed : Nat) :
    List NewsItem → List NewsItem × Nat
  | [] => (unique, removed)
  | item :: rest =>
    match mergeFirstDup item unique with
    | none => dedupeLoop (unique ++ [item]) removed rest
    | some unique' => dedupeLoop unique' (removed + 1) rest

/-- Models `dedupe_items` of `dedupe.py`. -/
def dedupe_items (items : List NewsItem) : List NewsItem × DedupStats :=
  let r := dedupeLoop [] 0 items
  (r.1, ⟨items.length, r.1.length, r.2⟩)

/-! ## Scorer (`scoring.py`) -/

/-- The `AI_BREAKTHROUGH` keyword set. -/
def AI_BREAKTHROUGH : List String :=
  ["breakthrough", "state-of-the-art", "sota", "foundation model", "agent",
   "reasoning", "inference", "chip", "semiconductor", "open source model"]

/-- The `WEB3_SIGNAL` keyword set. -/
def WEB3_SIGNAL : List String :=
  ["web3", "blockchain", "crypto", "bitcoin", "ethereum", "solana", "layer 2",
   "rollup", "defi", "tokenization", "stablecoin", "staking", "onchain", "wallet"]

/-- The `POWER_TRADING_SIGNAL` keyword set. -/
def POWER_TRADING_SIGNAL : List String :=
  ["power trading", "electricity market", "power market", "grid", "transmission",
   "congestion", "lmp", "locational marginal price", "capacity market",
   "ancillary services", "demand response", "curtailment", "interconnection",
   "ppa", "battery storage", "ercot", "pjm", "caiso"]

/-- The `INVESTMENT_POSITIVE` keyword set. -/
def INVESTMENT_POSITIVE : List String :=
  ["profit", "guidance raise", "beat estimates", "record revenue", "approval",
   "contract win", "partnership", "backlog", "buyback", "expansion", "adoption",
   "10-q", "10-k", "8-k", "filed", "etf", "mainnet", "tvl",
   "institutional adoption", "onchain volume", "ppa", "capacity auction",
   "ancillary services", "interconnection approval"]

/-- The `OVERLOOKED_SIGNAL` keyword set. -/
def OVERLOOKED_SIGNAL : List String :=
  ["policy", "infrastructure", "regulation", "supply chain", "talent", "hiring",
   "pilot", "standard", "benchmark", "grid bottleneck", "transmission queue",
   "curtailment", "congestion"]

/-- The `NEGATIVE_SIGNAL` keyword set. -/
def NEGATIVE_SIGNAL : List String :=
  ["fraud", "lawsuit", "probe", "investigation", "layoff", "cuts jobs",
   "miss estimates", "downgrade", "bankruptcy", "recall"]

/-- All keyword sets of `_heuristic_score`, concatenated. -/
def ALL_KEYWORDS : List String :=
  AI_BREAKTHROUGH ++ WEB3_SIGNAL ++ POWER_TRADING_SIGNAL ++ INVESTMENT_POSITIVE ++
    OVERLOOKED_SIGNAL ++ NEGATIVE_SIGNAL

/-- The lowered scoring blob of an item (`f"{title} {summary} {category}"
.lower()`; the source lowers again inside `_count_keywords`, which is a
no-op on an already lowered blob, so the model lowers once here). -/
def scoringBlob (item : NewsItem) : List Char :=
  lowerList (item.title ++ " " ++ item.summary ++ " " ++ item.category).data

/-- Membership of one keyword in a lowered blob (`key in lowered`). -/
def kwHit (blob : List Char) (k : String) : Bool :=
  containsSeq k.data blob

/-- Models `_count_keywords` applied to the lowered blob: the number of
keywords of the set occurring as substrings. -/
def countKeywords (blob : List Char) (keywords : List String) : Nat :=
  keywords.countP (fun k => kwHit blob k)

/-- The categories receiving the flat base bonus in `_heuristic_score`. -/
def BASE_CATEGORIES : List String :=
  ["ai", "it", "web3", "power_trading", "earnings", "prediction_market"]

/-- Models `_heuristic_score` of `scoring.py` with the exact decimal weights
as rationals. -/
def heuristicScore (item : NewsItem) : ℚ :=
  let blob := scoringBlob item
  let aiScore := (countKeywords blob AI_BREAKTHROUGH : ℚ) * (3 / 2)
  let web3Score := (countKeywords blob WEB3_SIGNAL : ℚ) * (27 / 20)
  let powerScore := (countKeywords blob POWER_TRADING_SIGNAL : ℚ) * (13 / 10)
  let investScore := (countKeywords blob INVESTMENT_POSITIVE : ℚ) * (7 / 5)
  let trendScore := (countKeywords blob OVERLOOKED_SIGNAL : ℚ) * (6 / 5)
  let riskPenalty := (countKeywords blob NEGATIVE_SIGNAL : ℚ) * (9 / 5)
  let base : ℚ := if item.category ∈ BASE_CATEGORIES then 1 else 0
  aiScore + web3Score + powerScore + investScore + trendScore + base - riskPenalty

/-- The descending-score relation of `scored.sort(key=lambda x: x.score,
reverse=True)`; insertion sort along it is stable, matching Python's sort. -/
def scoreGe (a b : NewsItem) : Prop :=
  b.score ≤ a.score

instance : DecidableRel scoreGe :=
  fun a b => inferInstanceAs (Decidable (b.score ≤ a.score))

instance : IsTotal NewsItem scoreGe :=
  ⟨fun a b => le_total b.score a.score⟩

instance : IsTrans NewsItem scoreGe :=
  ⟨fun _ _ _ h1 h2 => le_trans h2 h1⟩

/-- The pure local scoring path of `score_items`: assign the heuristic score
to every item, then stable-sort descending by score. -/
def localScoreItems (items : List NewsItem) : List NewsItem :=
  List.insertionSort scoreGe
    (items.map (fun it => { it with score := heuristicScore it }))

/-- One parsed row of the external scorer's `scores` payload
(`_llm_score_items`); unparsable rows are skipped by `id ≤ 0` upstream of
this model. -/
structure ScoreRow where
  id : Int
  keep : Bool := true
  positive : ℚ := 0
  incremental : ℚ := 0
  innovation : ℚ := 0
  investability : ℚ := 0
  verifiability : ℚ := 0
  total : Option ℚ := none
deriving DecidableEq

/-- Models `_clamp`. -/
def clampQ (num lo hi : ℚ) : ℚ :=
  max lo (min hi num)

/-- Models `round(x, 3)` (Python's float round, modelled as round-half-up on
exact rationals; no claim depends on the tie behaviour). -/
def round3 (q : ℚ) : ℚ :=
  (⌊q * 1000 + 1 / 2⌋ : ℚ) / 1000

/-- The blended external score of one row (the body of the
`for row in rows` loop of `_llm_score_items`). -/
def rowTotal (row : ScoreRow) : ℚ :=
  let summed :=
    clampQ row.positive 0 2 + clampQ row.incremental 0 2 +
      clampQ row.innovation 0 3 + clampQ row.investability 0 2 +
      clampQ row.verifiability 0 1
  let modelTotal := clampQ (row.total.getD summed) 0 10
  if row.keep then round3 (summed * (4 / 5) + modelTotal * (1 / 5)) else round3 0

/-- Dictionary update: replace the value of an existing key or append
(`llm_score_by_id[row_id] = total`). -/
def upsertScore : List (Int × ℚ) → Int → ℚ → List (Int × ℚ)
  | [], i, v => [(i, v)]
  | (j, w) :: rest, i, v =>
    if j = i then (i, v) :: rest else (j, w) :: upsertScore rest i v

/-- Builds `llm_score_by_id` from the payload rows, skipping ids `≤ 0`. -/
def buildScoreTable (rows : List ScoreRow) : List (Int × ℚ) :=
  rows.foldl (fun t row => if row.id ≤ 0 then t else upsertScore t row.id (rowTotal row)) []

/-- Association lookup in the score table. -/
def lookupScore (table : List (Int × ℚ)) (i : Int) : Option ℚ :=
  (table.find? (fun p => p.1 = i)).map (fun p => p.2)

/-- Enumerate a list starting from index `n` (models `enumerate(items, 1)`). -/
def enumFrom {α : Type} (n : Nat) : List α → List (Nat × α)
  | [] => []
  | x :: xs => (n, x) :: enumFrom (n + 1) xs

/-- Applies the parsed external payload to the items: items whose 1-based id
is in the table get the blended external score, the rest fall back to the
heuristic score; then stable-sort descending (tail of `_llm_score_items`). -/
def llmApply (rows : List ScoreRow) (items : List NewsItem) : List NewsItem :=
  let table := buildScoreTable rows
  List.insertionSort scoreGe
    ((enumFrom 1 items).map (fun p =>
      match lookupScore table (p.1 : Int) with
      | some s => { p.2 with score := s }
      | none => { p.2 with score := heuristicScore p.2 }))

/-- Outcome of the external-scoring interaction inside `_llm_score_items`,
abstracting the opaque network collaborator: the provider/key/flag checks can
disable the call (`None` before any request), the request can raise, the
response can lack a list-shaped `scores` field (`None`), or it can deliver
parsed rows. -/
inductive LlmOutcome where
  | disabled
  | raises
  | invalid
  | rows (rs : List ScoreRow)
deriving DecidableEq

/-- Models `_llm_score_items(items, settings)`: `.error` is a raised
exception, `.ok none` is Python `None`.  The `items = []` guard
(`if not items ... return None`) sits after the settings checks and before
the request, as in the source. -/
def llmScoreItems (oc : LlmOutcome) (items : List NewsItem) :
    Except Unit (Option (List NewsItem)) :=
  match oc with
  | .disabled => .ok none
  | .raises => if items = [] then .ok none else .error ()
  | .invalid => if items = [] then .ok none else .ok none
  | .rows rs => if items = [] then .ok none else .ok (some (llmApply rs items))

/-- Models `score_items(items, settings)`: `none` is `settings=None`; any
exception, `None` result, or empty (falsy) result list falls back to the
pure local deterministic path. -/
def score_items (oc : Option LlmOutcome) (items : List NewsItem) : List NewsItem :=
  match oc with
  | none => localScoreItems items
  | some o =>
    match llmScoreItems o items with
    | .error _ => localScoreItems items
    | .ok none => localScoreItems items
    | .ok (some ranked) => if ranked = [] then localScoreItems items else ranked

/-! ## Novelty tracker and pipeline helpers (`pipeline.py`) -/

/-- Search for the character closing a `（来源…）` span: the nearest following
`）`, unless a newline intervenes (the regex's `.` does not cross newlines).
Returns the remainder after the closing character. -/
def findAfterClose (close : Char) : List Char → Option (List Char)
  | [] => none
  | c :: rest =>
    if c = close then some rest
    else if c = '\n' then none
    else findAfterClose close rest

/-- Models `re.sub(r"（来源[:：].*?）", "", s)`: a fuelled left-to-right scan
deleting each span from `（来源:`/`（来源：` to the nearest `）`. -/
def dropZhSourceGo : Nat → List Char → List Char
  | 0, s => s
  | _, [] => []
  | fuel + 1, c :: rest =>
    if c = '（' ∧
        (startsSeq "来源:".data rest ∨ startsSeq "来源：".data rest) then
      match findAfterClose '）' (rest.drop 3) with
      | some rest' => dropZhSourceGo fuel rest'
      | none => c :: dropZhSourceGo fuel rest
    else c :: dropZhSourceGo fuel rest

/-- Models `re.sub(r"\(source:.*?\)", "", s)` on the already-lowered text. -/
def dropEnSourceGo : Nat → List Char → List Char
  | 0, s => s
  | _, [] => []
  | fuel + 1, c :: rest =>
    if c = '(' ∧ startsSeq "source:".data rest then
      match findAfterClose ')' (rest.drop 7) with
      | some rest' => dropEnSourceGo fuel rest'
      | none => c :: dropEnSourceGo fuel rest
    else c :: dropEnSourceGo fuel rest

/-- A character kept by `_normalize_text_signature`'s final class
`[a-z0-9一-鿿]`. -/
def isSigChar (c : Char) : Bool :=
  (c.isLower && c.isAlpha) || c.isDigit ||
    (decide (0x4e00 ≤ c.val) && decide (c.val ≤ 0x9fff))

/-- Models `_normalize_text_signature` of `pipeline.py`: strip + lower,
delete `（来源…）` and `(source:…)` citation spans, keep only lowercase ASCII
alphanumerics and CJK ideographs. -/
def normalizeTextSignature (text : String) : List Char :=
  let cleaned := lowerList (trimChars text.data)
  let cleaned := dropZhSourceGo cleaned.length cleaned
  let cleaned := dropEnSourceGo cleaned.length cleaned
  cleaned.filter isSigChar

/-- The per-item score adjustment of `_apply_repeat_penalty`, written as the
source writes it: subtract the full penalty on a raw-URL repeat, then 70 % of
the penalty on a title-signature repeat. -/
def penaltyAdjust (repeatedUrls repeatedTitles : List String) (penalty : ℚ)
    (item : NewsItem) : NewsItem :=
  let score := item.score
  let score := if item.url ≠ "" ∧ item.url ∈ repeatedUrls then score - penalty else score
  let titleSig := normalizeTextSignature item.title
  let score :=
    if titleSig ≠ [] ∧ (⟨titleSig⟩ : String) ∈ repeatedTitles then
      score - penalty * (7 / 10)
    else score
  { item with score := score }

/-- Models `_apply_repeat_penalty` of `pipeline.py`.  Note the URL test is
raw-string membership of `item.url` in the stored historical URL set. -/
def applyRepeatPenalty (ranked : List NewsItem)
    (repeatedUrls repeatedTitles : List String) (penalty : ℚ) : List NewsItem :=
  if penalty ≤ 0 then ranked
  else
    List.insertionSort scoreGe
      (ranked.map (penaltyAdjust repeatedUrls repeatedTitles penalty))

/-- The simultaneous form of the same adjustment, in the claim's phrasing:
subtract `p` exactly on a URL repeat and `0.7·p` exactly on a title repeat. -/
def penaltyAdjustSpec (repeatedUrls repeatedTitles : List String) (penalty : ℚ)
    (item : NewsItem) : NewsItem :=
  { item with
    score :=
      item.score -
        (if item.url ≠ "" ∧ item.url ∈ repeatedUrls then penalty else 0) -
        (if normalizeTextSignature item.title ≠ [] ∧
            (⟨normalizeTextSignature item.title⟩ : String) ∈ repeatedTitles then
          penalty * (7 / 10)
        else 0) }

/-- Reused-URL test of `_deprioritize_recent_urls`
(`bool(item.url and item.url in repeated_urls)`). -/
def isReused (repeatedUrls : List String) (item : NewsItem) : Bool :=
  decide (item.url ≠ "" ∧ item.url ∈ repeatedUrls)

/-- The walk of `_deprioritize_recent_urls`: fill the front window, deferring
a reused item to overflow once the reused quota is consumed; past the front
target everything goes to overflow. -/
def dpWalk (repeatedUrls : List String) (maxReused : Int) (target : Nat) :
    List NewsItem → List NewsItem → List NewsItem → Nat → List NewsItem × List NewsItem
  | [], front, overflow, _ => (front, overflow)
  | item :: rest, front, overflow, reusedCount =>
    if front.length < target then
      if isReused repeatedUrls item ∧ maxReused ≤ (reusedCount : Int) then
        dpWalk repeatedUrls maxReused target rest front (overflow ++ [item]) reusedCount
      else
        dpWalk repeatedUrls maxReused target rest (front ++ [item]) overflow
          (if isReused repeatedUrls item then reusedCount + 1 else reusedCount)
    else dpWalk repeatedUrls maxReused target rest front (overflow ++ [item]) reusedCount

/-- Models `_deprioritize_recent_urls` of `pipeline.py`, including the
backfill of an under-filled front window from the overflow list. -/
def deprioritizeRecentUrls (ranked : List NewsItem) (repeatedUrls : List String)
    (maxReused : Int) (frontSize : Nat) : List NewsItem :=
  if ranked = [] ∨ repeatedUrls = [] then ranked
  else if maxReused < 0 then ranked
  else
    let target := max 1 frontSize
    let walked := dpWalk repeatedUrls maxReused target ranked [] [] 0
    let front := walked.1
    let overflow := walked.2
    if front.length < target ∧ overflow ≠ [] then
      (front ++ overflow.take (target - front.length)) ++
        overflow.drop (target - front.length)
    else front ++ overflow

/-- Models `_line_is_repeated` of `pipeline.py`: exact signature membership,
substring containment when the contained side has ≥ 12 characters, or
similarity ratio ≥ 0.82 against any historical signature. -/
def lineIsRepeated (sig : List Char) (history : List (List Char)) : Bool :=
  if sig.isEmpty then false
  else
    decide (sig ∈ history) ||
      history.any (fun old =>
        !old.isEmpty &&
          ((decide (12 ≤ sig.length) && containsSeq sig old) ||
           (decide (12 ≤ old.length) && containsSeq old sig) ||
           decide (82 / 100 ≤ seqRatio sig old)))

/-- Models `_filter_repeated_lines` of `pipeline.py`: strip each line, drop
empties and historical repeats; if nothing survives, keep the first
`keepFallback` original lines. -/
def filterRepeatedLines (lines : List String) (history : List (List Char))
    (keepFallback : Nat) : List String :=
  let out := lines.filterMap (fun raw =>
    let line := strTrim raw
    if line = "" ∨ lineIsRepeated (normalizeTextSignature line) history then none
    else some line)
  if out = [] then lines.take keepFallback else out

/-- Models `_suppress_cross_report_repeats` of `pipeline.py` (fallback of two
original lines per category). -/
def suppressCrossReportRepeats (analysis : AnalysisResult)
    (recentLines : List (List Char)) : AnalysisResult :=
  if recentLines = [] then analysis
  else
    { analysis with
      breakthroughs := filterRepeatedLines analysis.breakthroughs recentLines 2
      investment_signals := filterRepeatedLines analysis.investment_signals recentLines 2
      overlooked_trends := filterRepeatedLines analysis.overlooked_trends recentLines 2
      watchlist := filterRepeatedLines analysis.watchlist recentLines 2 }

/-- The per-category suppression result in the claim's phrasing: the in-order
survivors (lines whose signature is not historically repeated), or the first
two original lines when no line survives. -/
def suppressedCategorySpec (lines : List String) (history : List (List Char)) :
    List String :=
  let survivors :=
    lines.filter (fun l => !lineIsRepeated (normalizeTextSignature l) history)
  if survivors = [] then lines.take 2 else survivors

/-- The walk of `_cap_source_items`, threading the count of already kept
items of the capped source. -/
def capGo (sourceName : String) (cap : Int) (count : Nat) :
    List NewsItem → List NewsItem
  | [] => []
  | item :: rest =>
    if item.source = sourceName then
      if cap ≤ (count : Int) then capGo sourceName cap count rest
      else item :: capGo sourceName cap (count + 1) rest
    else item :: capGo sourceName cap count rest

/-- Models `_cap_source_items` of `pipeline.py`, called by `_render_and_store`
with `source_name="SEC Filing", cap=5` after novelty adjustment. -/
def capSourceItems (items : List NewsItem) (sourceName : String) (cap : Int) :
    List NewsItem :=
  if cap < 0 then items else capGo sourceName cap 0 items

/-! ## Attribution matcher (`reporting.py`) -/

/-- Bullet characters consumed by `_strip_bullet_prefix`. -/
def isBulletChar (c : Char) : Bool :=
  c == '-' || c == '*' || c == '•' || c == '·'

/-- Models `_strip_bullet_prefix`: strip, remove a leading run of bullet
characters and the whitespace after it, strip again. -/
def stripBulletNoise (text : String) : String :=
  ⟨(((trimChars text.data).dropWhile isBulletChar).dropWhile Char.isWhitespace)⟩

/-- The bilingual alias map `TEXT_ALIAS_MAP` of `reporting.py`. -/
def TEXT_ALIAS_MAP : List (String × List String) :=
  [("代币化", ["tokenization", "tokenized"]),
   ("英国", ["united kingdom", "uk", "britain"]),
   ("加密", ["crypto", "cryptocurrency", "digital asset"]),
   ("链上", ["onchain", "on-chain"]),
   ("电力交易", ["power market", "electricity market", "power trading"]),
   ("预测市场", ["prediction market", "polymarket", "kalshi"]),
   ("内容创作者", ["creator", "substack"]),
   ("监管", ["regulation", "sec", "policy", "compliance"])]

/-- The stopword list of `_find_related_source_refs`. -/
def ATTR_STOPWORDS : List (List Char) :=
  ["the".data, "and".data, "for".data, "with".data, "from".data, "that".data,
   "this".data, "are".data, "was".data, "will".data, "into".data, "about".data,
   "2026".data, "2025".data]

/-- Token characters of the pattern `[a-z0-9]{2,}`. -/
def isTokenChar (c : Char) : Bool :=
  (c.isLower && c.isAlpha) || c.isDigit

/-- Models `re.findall(r"[a-z0-9]{2,}", s)`: maximal token-character runs of
length at least two. -/
def findTokens (s : List Char) : List (List Char) :=
  (runsOf isTokenChar s).filter (fun r => 2 ≤ r.length)

/-- The generic token set of `_find_related_source_refs`: deduplicated tokens
of the lowered line minus stopwords, extended by alias tokens for each
alias-map key occurring in the line. -/
def lineTokens (cleaned : List Char) : List (List Char) :=
  let base := dedupTokens (findTokens (lowerList cleaned))
  let base := base.filter (fun t => t ∉ ATTR_STOPWORDS)
  TEXT_ALIAS_MAP.foldl
    (fun acc p =>
      if containsSeq p.1.data cleaned then
        p.2.foldl (fun acc2 al => (findTokens (lowerList al.data)).foldl addUnique acc2) acc
      else acc)
    base

/-- Models `re.findall(r"\b[A-Z]{2,6}\b", s)` as a set: maximal word-character
runs made of 2–6 uppercase ASCII letters (runs mixing other word characters
have no inner word boundary and never match). -/
def tickerTokens (cleaned : List Char) : List (List Char) :=
  dedupTokens
    ((runsOf isWordChar cleaned).filter (fun r =>
      r.all (fun c => c.isUpper && c.isAlpha) && 2 ≤ r.length && r.length ≤ 6))

/-- Models `_category_hint` of `reporting.py`. -/
def categoryHint (text : String) : Option String :=
  let lowered := lowerList text.data
  if ["财报", "8-k", "10-k", "10-q", "业绩", "guidance", "earnings"].any
      (fun k => containsSeq (String.data k) lowered) then some "earnings"
  else if ["电力", "电网", "ppa", "ercot", "pjm", "caiso", "容量", "储能"].any
      (fun k => containsSeq (String.data k) lowered) then some "power_trading"
  else if ["web3", "加密", "比特币", "以太坊", "solana", "链上", "token", "defi"].any
      (fun k => containsSeq (String.data k) lowered) then some "web3"
  else if ["ai", "模型", "算力", "芯片", "agent"].any
      (fun k => containsSeq (String.data k) lowered) then some "ai"
  else none

/-- A candidate entry of `_source_entries`: 1-based rank index, the item, and
its lowered `title+summary+source+category` blob. -/
def sourceEntriesGo (idx : Nat) : List NewsItem → List (Nat × NewsItem × List Char)
  | [] => []
  | item :: rest =>
    if item.url = "" then sourceEntriesGo idx rest
    else
      (idx, item,
        lowerList (item.title ++ " " ++ item.summary ++ " " ++ item.source ++ " " ++
          item.category).data) :: sourceEntriesGo (idx + 1) rest

/-- Models `_source_entries` of `reporting.py` (items without a URL are
skipped and take no rank index). -/
def sourceEntries (topItems : List NewsItem) : List (Nat × NewsItem × List Char) :=
  sourceEntriesGo 1 topItems

/-- The per-candidate score of `_find_related_source_refs`: +1 per generic
token found in the blob, +2 per ticker token, +1.5 on a category-hint match
(the source also accepts category `it` for hint `ai`). -/
def candidateScore (tokens tickers : List (List Char)) (hint : Option String)
    (entry : Nat × NewsItem × List Char) : ℚ :=
  (tokens.countP (fun t => containsSeq t entry.2.2) : ℚ) +
    2 * (tickers.countP (fun tk => containsSeq (lowerList tk) entry.2.2) : ℚ) +
    (match hint with
     | some h =>
       if entry.2.1.category = h ∨ (h = "ai" ∧ entry.2.1.category = "it") then (3 : ℚ) / 2
       else 0
     | none => 0)

/-- The positive-score candidate triples `(score, idx, url)` of
`_find_related_source_refs`, in candidate order. -/
def scoredCandidates (text : String) (sources : List (Nat × NewsItem × List Char)) :
    List (ℚ × Nat × String) :=
  let cleaned := stripBulletNoise text
  let tokens := lineTokens cleaned.data
  let tickers := tickerTokens cleaned.data
  let hint := categoryHint cleaned
  sources.filterMap (fun e =>
    let s := candidateScore tokens tickers hint e
    if 0 < s then some (s, e.1, e.2.1.url) else none)

/-- The sort key order of `scored.sort(key=lambda x: (-x[0], x[1]))`: higher
score first, ties by ascending original rank index.  Insertion sort along it
is stable, like Python's sort. -/
def refKeyLe (a b : ℚ × Nat × String) : Prop :=
  b.1 < a.1 ∨ (a.1 = b.1 ∧ a.2.1 ≤ b.2.1)

instance : DecidableRel refKeyLe :=
  fun a b => inferInstanceAs (Decidable (b.1 < a.1 ∨ (a.1 = b.1 ∧ a.2.1 ≤ b.2.1)))

instance : IsTotal (ℚ × Nat × String) refKeyLe :=
  ⟨fun a b => by
    rcases lt_trichotomy a.1 b.1 with h | h | h
    · exact Or.inr (Or.inl h)
    · rcases Nat.le_total a.2.1 b.2.1 with h2 | h2
      · exact Or.inl (Or.inr ⟨h, h2⟩)
      · exact Or.inr (Or.inr ⟨h.symm, h2⟩)
    · exact Or.inl (Or.inl h)⟩

instance : IsTrans (ℚ × Nat × String) refKeyLe :=
  ⟨fun a b c h1 h2 => by
    rcases h1 with h1 | ⟨e1, l1⟩
    · rcases h2 with h2 | ⟨e2, l2⟩
      · exact Or.inl (h2.trans h1)
      · exact Or.inl (e2 ▸ h1)
    · rcases h2 with h2 | ⟨e2, l2⟩
      · exact Or.inl (e1 ▸ h2)
      · exact Or.inr ⟨e1.trans e2, l1.trans l2⟩⟩

/-- Models `_find_related_source_refs` of `reporting.py`: positive-score
candidates sorted by descending score then ascending rank index, truncated to
`limit`, projected to `(rank index, url)` pairs. -/
def findRelatedSourceRefs (text : String)
    (sources : List (Nat × NewsItem × List Char)) (limit : Nat) :
    List (Nat × String) :=
  if (stripBulletNoise text).data = [] then []
  else
    ((List.insertionSort refKeyLe (scoredCandidates text sources)).take limit).map
      (fun t => (t.2.1, t.2.2))

/-! ## Helper lemmas -/

/-- `heuristicScore` never reads the `score` field. -/
theorem heuristicScore_set_score (it : NewsItem) (s : ℚ) :
    heuristicScore { it with score := s } = heuristicScore it := rfl

/-- Counting with a predicate flipped to true at exactly one list member
(occurring once) increments the count. -/
theorem countP_update {α : Type} (L : List α) (p q : α → Bool) (a : α)
    (ha : a ∈ L) (hnd : L.Nodup) (hpa : p a = false) (hqa : q a = true)
    (hoth : ∀ x ∈ L, x ≠ a → q x = p x) :
    L.countP q = L.countP p + 1 := by
  induction L with
  | nil => cases ha
  | cons x xs ih =>
    rcases List.mem_cons.mp ha with h | h
    · subst h
      have hxs : ∀ y ∈ xs, q y = p y := by
        intro y hy
        exact hoth y (List.mem_cons_of_mem _ hy)
          (fun e => (List.nodup_cons.mp hnd).1 (e ▸ hy))
      rw [List.countP_cons, List.countP_cons, hpa, hqa,
        List.countP_congr (fun y hy => by rw [hxs y hy])]
      simp
    · have hxa : x ≠ a := fun e => (List.nodup_cons.mp hnd).1 (e ▸ h)
      rw [List.countP_cons, List.countP_cons,
        ih h (List.nodup_cons.mp hnd).2
          (fun y hy hne => hoth y (List.mem_cons_of_mem _ hy) hne),
        hoth x (List.mem_cons_self _ _) hxa]
      ring

/-- Replacing one member of a pairwise-related list by an element related in
the same ways preserves pairwiseness. -/
theorem pairwise_replace {α : Type} {R : α → α → Prop} {pre post : List α}
    {x x' : α} (h : List.Pairwise R (pre ++ x :: post))
    (h1 : ∀ a, R a x → R a x') (h2 : ∀ b, R x b → R x' b) :
    List.Pairwise R (pre ++ x' :: post) := by
  rw [List.pairwise_append] at h ⊢
  obtain ⟨hpre, hmid, hcross⟩ := h
  rw [List.pairwise_cons] at hmid ⊢
  refine ⟨hpre, ⟨fun b hb => h2 b (hmid.1 b hb), hmid.2⟩, ?_⟩
  intro a ha b hb
  rcases List.mem_cons.mp hb with hb | hb
  · exact hb ▸ h1 a (hcross a ha x (List.mem_cons_self _ _))
  · exact hcross a ha b (List.mem_cons_of_mem _ hb)

/-- The kept items of `capGo` form a sublist of the input. -/
theorem capGo_sublist (name : String) (cap : Int) :
    ∀ (items : List NewsItem) (count : Nat),
      (capGo name cap count items).Sublist items := by
  intro items
  induction items with
  | nil => intro count; simp [capGo]
  | cons item rest ih =>
    intro count
    by_cases hs : item.source = name
    · by_cases hc : cap ≤ (count : Int)
      · simpa [capGo, hs, hc] using (ih count).cons item
      · simpa [capGo, hs, hc] using (ih (count + 1)).cons₂ item
    · simpa [capGo, hs] using (ih count).cons₂ item

/-- `capGo` keeps the first `cap - count` matching items, in order. -/
theorem capGo_filter_match (name : String) (cap : Int) (hcap : 0 ≤ cap) :
    ∀ (items : List NewsItem) (count : Nat),
      (capGo name cap count items).filter (fun it => decide (it.source = name)) =
        ((items.filter (fun it => decide (it.source = name))).take (cap.toNat - count)) := by
  intro items
  induction items with
  | nil => intro count; simp [capGo]
  | cons item rest ih =>
    intro count
    by_cases hs : item.source = name
    · by_cases hc : cap ≤ (count : Int)
      · have h0 : cap.toNat - count = 0 := by omega
        simp [capGo, hs, hc, ih count, h0]
      · have h1 : cap.toNat - count = (cap.toNat - (count + 1)) + 1 := by omega
        simp [capGo, hs, hc, ih (count + 1), h1]
    · simp [capGo, hs, ih count]

/-- `capGo` keeps every item of other sources. -/
theorem capGo_filter_other (name : String) (cap : Int) :
    ∀ (items : List NewsItem) (count : Nat),
      (capGo name cap count items).filter (fun it => !decide (it.source = name)) =
        items.filter (fun it => !decide (it.source = name)) := by
  intro items
  induction items with
  | nil => intro count; simp [capGo]
  | cons item rest ih =>
    intro count
    by_cases hs : item.source = name
    · by_cases hc : cap ≤ (count : Int)
      · simp [capGo, hs, hc, ih count]
      · simp [capGo, hs, hc, ih (count + 1)]
    · simp [capGo, hs, ih count]

/-- C10: after novelty adjustment the pipeline applies a per-source cap the
spec does not mention (`_render_and_store` calls `_cap_source_items` with
`"SEC Filing"`, 5): with `cap < 0` the list is unchanged; otherwise the
output is an order-preserving sublist in which exactly the first `cap` items
of the capped source survive (the rest are dropped entirely) and every item
of any other source is preserved. -/
theorem claim_C10 (items : List NewsItem) (sourceName : String) (cap : Int) :
    if cap < 0 then capSourceItems items sourceName cap = items
    else
      (capSourceItems items sourceName cap).Sublist items ∧
      (capSourceItems items sourceName cap).filter
          (fun it => decide (it.source = sourceName)) =
        (items.filter (fun it => decide (it.source = sourceName))).take cap.toNat ∧
      (capSourceItems items sourceName cap).filter
          (fun it => !decide (it.source = sourceName)) =
        items.filter (fun it => !decide (it.source = sourceName)) := by
  by_cases hc : cap < 0
  · simp [capSourceItems, hc]
  · have hcap : 0 ≤ cap := by omega
    simp only [hc, if_false, capSourceItems, if_neg hc]
    exact ⟨capGo_sublist sourceName cap items 0,
      by simpa using capGo_filter_match sourceName cap hcap items 0,
      capGo_filter_other sourceName cap items 0⟩

/-- An item with an empty url has an empty canonical url. -/
theorem canonicalUrl_ne_empty {u : String} (h : canonicalUrl u ≠ "") : u ≠ "" := by
  intro he
  exact h (by simp [canonicalUrl, he])

/-- C5: two items whose URLs share a non-empty canonical form are merged by
dedupe regardless of title: the first-seen item survives (keeping its
position, title, source, and non-empty url), adopts the longer summary, and
adopts the duplicate's `published_at` when it is later or the survivor has
none; the stats record 2 raw, 1 unique, 1 removed. -/
theorem claim_C5 (a b : NewsItem)
    (h1 : canonicalUrl a.url = canonicalUrl b.url)
    (h2 : canonicalUrl a.url ≠ "") :
    dedupe_items [a, b] = ([mergeInto a b], ⟨2, 1, 1⟩) ∧
    (mergeInto a b).title = a.title ∧
    (mergeInto a b).source = a.source ∧
    (mergeInto a b).url = a.url ∧
    (mergeInto a b).summary =
      (if a.summary.data.length < b.summary.data.length then b.summary
       else a.summary) ∧
    (mergeInto a b).published_at =
      (match b.published_at, a.published_at with
       | some p, none => some p
       | some p, some q => if q < p then some p else some q
       | none, q => q) := by
  have hdup : isDuplicate b a = true := by
    simp only [isDuplicate]
    rw [if_pos]
    exact ⟨h1 ▸ h2, h2, h1.symm⟩
  have haurl : a.url ≠ "" := canonicalUrl_ne_empty h2
  refine ⟨?_, rfl, rfl, ?_, rfl, rfl⟩
  · simp [dedupe_items, dedupeLoop, mergeFirstDup, hdup]
  · simp [mergeInto, haurl]

/-- Witness for C5 at the spec's own example: same host and path, different
query strings, the longer summary wins. -/
theorem claim_C5_witness :
    canonicalUrl "https://e.com/a?x=1" = canonicalUrl "https://e.com/a?x=2" ∧
    canonicalUrl "https://e.com/a?x=1" ≠ "" ∧
    (dedupe_items
        [{ title := "Foo", url := "https://e.com/a?x=1", source := "rss",
           category := "general", summary := "short" },
         { title := "Foo!", url := "https://e.com/a?x=2", source := "rss",
           category := "general", summary := "a longer description here" }]).1 =
      [{ title := "Foo", url := "https://e.com/a?x=1", source := "rss",
         category := "general", summary := "a longer description here" }] := by
  refine ⟨by decide, by decide, ?_⟩
  rw [(claim_C5
    { title := "Foo", url := "https://e.com/a?x=1", source := "rss",
      category := "general", summary := "short" }
    { title := "Foo!", url := "https://e.com/a?x=2", source := "rss",
      category := "general", summary := "a longer description here" }
    (by decide) (by decide)).1]
  decide

/-- The sequential penalty subtraction equals the simultaneous form. -/
theorem penaltyAdjust_eq_spec (urls titles : List String) (p : ℚ) (item : NewsItem) :
    penaltyAdjust urls titles p item = penaltyAdjustSpec urls titles p item := by
  by_cases h1 : item.url ≠ "" ∧ item.url ∈ urls
  · by_cases h2 : normalizeTextSignature item.title ≠ [] ∧
        (⟨normalizeTextSignature item.title⟩ : String) ∈ titles
    · simp [penaltyAdjust, penaltyAdjustSpec, h1, h2]
    · simp [penaltyAdjust, penaltyAdjustSpec, h1, h2]
  · by_cases h2 : normalizeTextSignature item.title ≠ [] ∧
        (⟨normalizeTextSignature item.title⟩ : String) ∈ titles
    · simp [penaltyAdjust, penaltyAdjustSpec, h1, h2]
    · simp [penaltyAdjust, penaltyAdjustSpec, h1, h2]

/-- C3 (amended): for a positive penalty `p` the repeat-penalty step maps
each item to its adjusted score — subtracting `p` exactly when the item's
raw url string is non-empty and in the historical URL set, and `0.7·p`
exactly when its normalized title signature is in the historical title set —
and stable-sorts the adjusted items descending by score.  (The source
matches the stored raw url, not the canonical url; see the counterexample.) -/
theorem claim_C3 (ranked : List NewsItem) (urls titles : List String)
    (p : ℚ) (hp : 0 < p) :
    applyRepeatPenalty ranked urls titles p =
      List.insertionSort scoreGe (ranked.map (penaltyAdjustSpec urls titles p)) ∧
    List.Sorted scoreGe (applyRepeatPenalty ranked urls titles p) ∧
    (applyRepeatPenalty ranked urls titles p).Perm
      (ranked.map (penaltyAdjustSpec urls titles p)) := by
  have hnp : ¬ p ≤ 0 := not_le.mpr hp
  have heq : applyRepeatPenalty ranked urls titles p =
      List.insertionSort scoreGe (ranked.map (penaltyAdjustSpec urls titles p)) := by
    simp only [applyRepeatPenalty, if_neg hnp]
    congr 1
    exact List.map_congr_left (fun item _ => penaltyAdjust_eq_spec urls titles p item)
  refine ⟨heq, ?_, ?_⟩
  · rw [heq]
    exact List.sorted_insertionSort scoreGe _
  · rw [heq]
    exact List.perm_insertionSort scoreGe _

/-- Witness for C3 at the spec's instance: A (url in history, raw 9.0) drops
to 7.8, B (fresh, raw 8.4) stays, and the re-sort places B above A. -/
theorem claim_C3_witness :
    (0 : ℚ) < 6 / 5 ∧
    applyRepeatPenalty
        [{ title := "Alpha example", url := "https://h.example/a", source := "s",
           category := "general", score := 9 },
         { title := "Beta example", url := "https://h.example/b", source := "s",
           category := "general", score := 42 / 5 }]
        ["https://h.example/a"] [] (6 / 5) =
      [{ title := "Beta example", url := "https://h.example/b", source := "s",
         category := "general", score := 42 / 5 },
       { title := "Alpha example", url := "https://h.example/a", source := "s",
         category := "general", score := 39 / 5 }] := by
  refine ⟨by norm_num, ?_⟩
  rw [(claim_C3
    [{ title := "Alpha example", url := "https://h.example/a", source := "s",
       category := "general", score := 9 },
     { title := "Beta example", url := "https://h.example/b", source := "s",
       category := "general", score := 42 / 5 }]
    ["https://h.example/a"] [] (6 / 5) (by norm_num)).1]
  with_unfolding_all decide

/-- Counterexample to C3 as stated: an item whose canonical URL
(`e.com/a`) is in the historical URL set receives no penalty, because the
source compares the raw url string (`https://E.com/a`), not its canonical
form — the claim predicts a score of `9 − 1.2 = 7.8`, the code returns 9. -/
theorem claim_C3_counterexample :
    canonicalUrl "https://E.com/a" ∈ ["e.com/a"] ∧
    (applyRepeatPenalty
        [{ title := "Gamma example", url := "https://E.com/a", source := "s",
           category := "general", score := 9 }]
        ["e.com/a"] [] (6 / 5)).map (fun it => it.score) = [9] := by
  constructor
  · decide
  · with_unfolding_all decide

/-- Mapping the second components of an enumeration is mapping the list. -/
theorem enumFrom_map_snd {α β : Type} (f : α → β) :
    ∀ (n : Nat) (l : List α), (enumFrom n l).map (fun p => f p.2) = l.map f := by
  intro n l
  induction l generalizing n with
  | nil => rfl
  | cons x xs ih => simp [enumFrom, ih]

/-- An empty external payload scores every item heuristically, which is
exactly the local path. -/
theorem llmApply_nil (items : List NewsItem) :
    llmApply [] items = localScoreItems items := by
  refine congrArg (List.insertionSort scoreGe) ?_
  rw [List.map_congr_left (fun (p : Nat × NewsItem) _ =>
    (rfl : (match lookupScore (buildScoreTable []) (p.1 : Int) with
            | some s => { p.2 with score := s }
            | none => { p.2 with score := heuristicScore p.2 }) =
          { p.2 with score := heuristicScore p.2 }))]
  exact enumFrom_map_snd (fun it => { it with score := heuristicScore it }) 1 items

/-- Every member of the local scoring output carries its own heuristic
score. -/
theorem localScoreItems_mem_score (items : List NewsItem) :
    ∀ x ∈ localScoreItems items, x.score = heuristicScore x := by
  intro x hx
  have hx' := (List.perm_insertionSort scoreGe
    (items.map (fun it => { it with score := heuristicScore it }))).mem_iff.mp hx
  obtain ⟨it, _, rfl⟩ := List.mem_map.mp hx'
  exact (heuristicScore_set_score it (heuristicScore it)).symm

/-- C1: if the external (LLM) scoring strategy raises, returns an invalid
payload (no list-shaped `scores`), or returns an empty payload, then
`score_items` returns exactly the pure local deterministic result: every
output item's score is its local heuristic keyword score, and the output is
the heuristically scored items stable-sorted descending by score (insertion
sort along `scoreGe` is stable, so ties keep the original input order, as
with Python's `list.sort`). -/
theorem claim_C1 (items : List NewsItem) (oc : Option LlmOutcome)
    (h : oc = some .raises ∨ oc = some .invalid ∨ oc = some (.rows [])) :
    score_items oc items = localScoreItems items ∧
    (∀ x ∈ score_items oc items, x.score = heuristicScore x) ∧
    (score_items oc items).Perm
      (items.map (fun it => { it with score := heuristicScore it })) ∧
    List.Sorted scoreGe (score_items oc items) := by
  have heq : score_items oc items = localScoreItems items := by
    rcases h with h | h | h <;> subst h
    · by_cases hi : items = [] <;> simp [score_items, llmScoreItems, hi]
    · by_cases hi : items = [] <;> simp [score_items, llmScoreItems, hi]
    · by_cases hi : items = []
      · simp [score_items, llmScoreItems, hi]
      · simp only [score_items, llmScoreItems, hi, if_neg hi, llmApply_nil]
        by_cases hr : localScoreItems items = [] <;> simp [hr]
  refine ⟨heq, ?_, ?_, ?_⟩
  · rw [heq]; exact localScoreItems_mem_score items
  · rw [heq]; exact List.perm_insertionSort scoreGe _
  · rw [heq]; exact List.sorted_insertionSort scoreGe _

/-- Witness for C1: a raising external strategy on a concrete two-item batch
falls back to the local result, which evaluates to the heuristically scored
items in descending order. -/
theorem claim_C1_witness :
    score_items (some .raises)
        [{ title := "Company fraud probe", url := "", source := "s",
           category := "general" },
         { title := "AI agent inference chip", url := "", source := "s",
           category := "ai" }] =
      localScoreItems
        [{ title := "Company fraud probe", url := "", source := "s",
           category := "general" },
         { title := "AI agent inference chip", url := "", source := "s",
           category := "ai" }] ∧
    localScoreItems
        [{ title := "Company fraud probe", url := "", source := "s",
           category := "general" },
         { title := "AI agent inference chip", url := "", source := "s",
           category := "ai" }] =
      [{ title := "AI agent inference chip", url := "", source := "s",
         category := "ai", score := 11 / 2 },
       { title := "Company fraud probe", url := "", source := "s",
         category := "general", score := -18 / 5 }] := by
  constructor
  · exact (claim_C1
      [{ title := "Company fraud probe", url := "", source := "s",
         category := "general" },
       { title := "AI agent inference chip", url := "", source := "s",
         category := "ai" }]
      (some .raises) (Or.inl rfl)).1
  · with_unfolding_all decide

/-- The walk of the front-slot capping step only redistributes: front and
overflow together are a permutation of the accumulators plus the input. -/
theorem dpWalk_perm (urls : List String) (m : Int) (t : Nat) :
    ∀ (items front overflow : List NewsItem) (rc : Nat),
      ((dpWalk urls m t items front overflow rc).1 ++
        (dpWalk urls m t items front overflow rc).2).Perm
        (front ++ overflow ++ items) := by
  intro items
  induction items with
  | nil => intro front overflow rc; simp [dpWalk]
  | cons item rest ih =>
    intro front overflow rc
    by_cases hf : front.length < t
    · by_cases hd : isReused urls item ∧ m ≤ (rc : Int)
      · simp only [dpWalk, if_pos hf, if_pos hd]
        simpa using ih front (overflow ++ [item]) rc
      · simp only [dpWalk, if_pos hf, if_neg hd]
        refine (ih (front ++ [item]) overflow
          (if isReused urls item then rc + 1 else rc)).trans ?_
        have h2 : (item :: (overflow ++ rest)).Perm (overflow ++ item :: rest) :=
          List.perm_middle.symm
        have h3 : (front ++ (item :: (overflow ++ rest))).Perm
            (front ++ (overflow ++ item :: rest)) :=
          List.Perm.append_left front h2
        simpa using h3
    · simp only [dpWalk, if_neg hf]
      simpa using ih front (overflow ++ [item]) rc

/-- The walk extends its accumulators with order-preserving selections of the
input: the new front and overflow parts are sublists of the walked items. -/
theorem dpWalk_decomp (urls : List String) (m : Int) (t : Nat) :
    ∀ (items front overflow : List NewsItem) (rc : Nat),
      ∃ f o, (dpWalk urls m t items front overflow rc).1 = front ++ f ∧
        (dpWalk urls m t items front overflow rc).2 = overflow ++ o ∧
        f.Sublist items ∧ o.Sublist items := by
  intro items
  induction items with
  | nil =>
    intro front overflow rc
    exact ⟨[], [], by simp [dpWalk], by simp [dpWalk], List.Sublist.refl _,
      List.Sublist.refl _⟩
  | cons item rest ih =>
    intro front overflow rc
    by_cases hf : front.length < t
    · by_cases hd : isReused urls item ∧ m ≤ (rc : Int)
      · obtain ⟨f, o, h1, h2, h3, h4⟩ := ih front (overflow ++ [item]) rc
        refine ⟨f, item :: o, ?_, ?_, h3.cons item, h4.cons₂ item⟩
        · simp only [dpWalk, if_pos hf, if_pos hd, h1]
        · simp only [dpWalk, if_pos hf, if_pos hd, h2]
          simp
      · obtain ⟨f, o, h1, h2, h3, h4⟩ := ih (front ++ [item]) overflow
          (if isReused urls item then rc + 1 else rc)
        refine ⟨item :: f, o, ?_, ?_, h3.cons₂ item, h4.cons item⟩
        · simp only [dpWalk, if_pos hf, if_neg hd, h1]
          simp
        · simp only [dpWalk, if_pos hf, if_neg hd, h2]
    · obtain ⟨f, o, h1, h2, h3, h4⟩ := ih front (overflow ++ [item]) rc
      refine ⟨f, item :: o, ?_, ?_, h3.cons item, h4.cons₂ item⟩
      · simp only [dpWalk, if_neg hf, h1]
      · simp only [dpWalk, if_neg hf, h2]
        simp

/-- C4: the front-slot capping step always returns `front ++ overflow` where
both partitions are order-preserving sublists of the re-sorted input and
every input item appears exactly once (the backfill step only moves the
partition boundary, not the sequence); deferral to overflow happens exactly
when the walk meets a historical-URL repeat with the reused quota already
consumed, as in `dpWalk`.  In particular, with 4 historically-repeated and 4
fresh items, `max_reused_in_front = 2` and `front_size = 6`, the first 6
output items contain at most 2 repeated-URL items. -/
theorem claim_C4 :
    (∀ (ranked : List NewsItem) (urls : List String) (m : Int) (fs : Nat),
      (deprioritizeRecentUrls ranked urls m fs).Perm ranked ∧
      ∃ f o, deprioritizeRecentUrls ranked urls m fs = f ++ o ∧
        f.Sublist ranked ∧ o.Sublist ranked) ∧
    ((deprioritizeRecentUrls
        [{ title := "r1", url := "u1", source := "s", category := "g", score := 8 },
         { title := "r2", url := "u2", source := "s", category := "g", score := 7 },
         { title := "r3", url := "u3", source := "s", category := "g", score := 6 },
         { title := "f1", url := "v1", source := "s", category := "g", score := 5 },
         { title := "r4", url := "u4", source := "s", category := "g", score := 4 },
         { title := "f2", url := "v2", source := "s", category := "g", score := 3 },
         { title := "f3", url := "v3", source := "s", category := "g", score := 2 },
         { title := "f4", url := "v4", source := "s", category := "g", score := 1 }]
        ["u1", "u2", "u3", "u4"] 2 6).take 6).countP
      (isReused ["u1", "u2", "u3", "u4"]) ≤ 2 := by
  constructor
  · intro ranked urls m fs
    by_cases h1 : ranked = [] ∨ urls = []
    · refine ⟨by simp [deprioritizeRecentUrls, h1], ranked, [], ?_, ?_, ?_⟩
      · simp [deprioritizeRecentUrls, h1]
      · simp [deprioritizeRecentUrls, h1]
      · exact List.nil_sublist ranked
    · by_cases h2 : m < 0
      · refine ⟨by simp [deprioritizeRecentUrls, h1, h2], ranked, [], ?_, ?_, ?_⟩
        · simp [deprioritizeRecentUrls, h1, h2]
        · simp [deprioritizeRecentUrls, h1, h2]
        · exact List.nil_sublist ranked
      · have hout : deprioritizeRecentUrls ranked urls m fs =
            (dpWalk urls m (max 1 fs) ranked [] [] 0).1 ++
              (dpWalk urls m (max 1 fs) ranked [] [] 0).2 := by
          simp only [deprioritizeRecentUrls, if_neg h1, if_neg h2]
          by_cases hb : (dpWalk urls m (max 1 fs) ranked [] [] 0).1.length <
              max 1 fs ∧ (dpWalk urls m (max 1 fs) ranked [] [] 0).2 ≠ []
          · rw [if_pos hb, List.append_assoc, List.take_append_drop]
          · rw [if_neg hb]
        constructor
        · rw [hout]
          simpa using dpWalk_perm urls m (max 1 fs) ranked [] [] 0
        · obtain ⟨f, o, hf, ho, hsf, hso⟩ :=
            dpWalk_decomp urls m (max 1 fs) ranked [] [] 0
          exact ⟨f, o, by rw [hout, hf, ho]; simp, hsf, hso⟩
  · with_unfolding_all decide

/-- String append concatenates the underlying character lists. -/
theorem str_data_append (a b : String) : (a ++ b).data = a.data ++ b.data := rfl

/-- Lowering distributes over list append. -/
theorem lowerList_append (a b : List Char) :
    lowerList (a ++ b) = lowerList a ++ lowerList b :=
  List.map_append Char.toLower a b

/-- `startsSeq` decides the prefix relation. -/
theorem startsSeq_iff : ∀ (p s : List Char), startsSeq p s = true ↔ p <+: s := by
  intro p
  induction p with
  | nil => intro s; simp [startsSeq, List.nil_prefix]
  | cons a as ih =>
    intro s
    cases s with
    | nil =>
      simp [startsSeq]
    | cons b bs =>
      rw [startsSeq, Bool.and_eq_true, beq_iff_eq, List.cons_prefix_cons, ih bs]

/-- `containsSeq` decides the contiguous-substring relation. -/
theorem containsSeq_iff : ∀ (s p : List Char), containsSeq p s = true ↔ p <:+: s := by
  intro s
  induction s with
  | nil =>
    intro p
    rw [containsSeq, List.isEmpty_iff, List.infix_nil]
  | cons c rest ih =>
    intro p
    rw [containsSeq, Bool.or_eq_true, List.infix_cons_iff, startsSeq_iff, ih]

/-- No negative keyword belongs to any positive keyword set. -/
theorem negative_disjoint :
    ∀ k ∈ NEGATIVE_SIGNAL, k ∉ AI_BREAKTHROUGH ∧ k ∉ WEB3_SIGNAL ∧
      k ∉ POWER_TRADING_SIGNAL ∧ k ∉ INVESTMENT_POSITIVE ∧
      k ∉ OVERLOOKED_SIGNAL := by decide

/-- The negative keyword list has no duplicates. -/
theorem negative_nodup : NEGATIVE_SIGNAL.Nodup := by decide

/-- Every negative keyword is already lowercase. -/
theorem negative_lower : ∀ k ∈ NEGATIVE_SIGNAL, lowerList k.data = k.data := by decide

/-- Appending a keyword to an item's summary plants it inside the lowered
scoring blob. -/
theorem kwHit_append (item : NewsItem) (kw : String)
    (hlow : lowerList kw.data = kw.data) :
    kwHit (scoringBlob { item with summary := item.summary ++ kw }) kw = true := by
  rw [kwHit, containsSeq_iff]
  show kw.data <:+:
    lowerList (item.title ++ " " ++ (item.summary ++ kw) ++ " " ++ item.category).data
  rw [str_data_append, str_data_append, str_data_append, str_data_append,
    str_data_append, lowerList_append, lowerList_append, lowerList_append,
    lowerList_append, lowerList_append, hlow]
  exact ⟨lowerList item.title.data ++ lowerList " ".data ++ lowerList item.summary.data,
    lowerList " ".data ++ lowerList item.category.data, by simp [List.append_assoc]⟩

/-- C9: appending a negative keyword that is not already in the scoring blob,
in such a way that no other keyword's substring hit changes, strictly
decreases the local heuristic score — each negative hit weighs 1.8, which
also exceeds every single positive per-hit weight (max 1.5). -/
theorem claim_C9 (item : NewsItem) (kw : String)
    (hkw : kw ∈ NEGATIVE_SIGNAL)
    (hnot : kwHit (scoringBlob item) kw = false)
    (hoth : ∀ k ∈ ALL_KEYWORDS, k ≠ kw →
      kwHit (scoringBlob { item with summary := item.summary ++ kw }) k =
        kwHit (scoringBlob item) k) :
    heuristicScore { item with summary := item.summary ++ kw } <
      heuristicScore item := by
  have hhit : kwHit (scoringBlob { item with summary := item.summary ++ kw }) kw = true :=
    kwHit_append item kw (negative_lower kw hkw)
  have hd := negative_disjoint kw hkw
  have hmemall : ∀ {S : List String}, S = AI_BREAKTHROUGH ∨ S = WEB3_SIGNAL ∨
      S = POWER_TRADING_SIGNAL ∨ S = INVESTMENT_POSITIVE ∨ S = OVERLOOKED_SIGNAL ∨
      S = NEGATIVE_SIGNAL → ∀ k ∈ S, k ∈ ALL_KEYWORDS := by
    intro S hS k hk
    unfold ALL_KEYWORDS
    rcases hS with h | h | h | h | h | h <;> subst h <;> simp [hk]
  have hposcount : ∀ (S : List String), kw ∉ S →
      (S = AI_BREAKTHROUGH ∨ S = WEB3_SIGNAL ∨ S = POWER_TRADING_SIGNAL ∨
        S = INVESTMENT_POSITIVE ∨ S = OVERLOOKED_SIGNAL ∨ S = NEGATIVE_SIGNAL) →
      countKeywords (scoringBlob { item with summary := item.summary ++ kw }) S =
        countKeywords (scoringBlob item) S := by
    intro S hnotin hS
    apply List.countP_congr
    intro k hk
    have hne : k ≠ kw := fun e => hnotin (e ▸ hk)
    rw [hoth k (hmemall hS k hk) hne]
  have hai := hposcount AI_BREAKTHROUGH hd.1 (Or.inl rfl)
  have hweb := hposcount WEB3_SIGNAL hd.2.1 (Or.inr (Or.inl rfl))
  have hpow := hposcount POWER_TRADING_SIGNAL hd.2.2.1 (Or.inr (Or.inr (Or.inl rfl)))
  have hinv := hposcount INVESTMENT_POSITIVE hd.2.2.2.1
    (Or.inr (Or.inr (Or.inr (Or.inl rfl))))
  have htrd := hposcount OVERLOOKED_SIGNAL hd.2.2.2.2
    (Or.inr (Or.inr (Or.inr (Or.inr (Or.inl rfl)))))
  have hneg : countKeywords (scoringBlob { item with summary := item.summary ++ kw })
      NEGATIVE_SIGNAL = countKeywords (scoringBlob item) NEGATIVE_SIGNAL + 1 := by
    apply countP_update NEGATIVE_SIGNAL (kwHit (scoringBlob item))
      (kwHit (scoringBlob { item with summary := item.summary ++ kw })) kw hkw
      negative_nodup hnot hhit
    intro x hx hne
    exact hoth x (hmemall (Or.inr (Or.inr (Or.inr (Or.inr (Or.inr rfl))))) x hx) hne
  simp only [heuristicScore, hai, hweb, hpow, hinv, htrd, hneg]
  push_cast
  have hcat : ({ item with summary := item.summary ++ kw } : NewsItem).category =
      item.category := rfl
  rw [hcat]
  linarith

/-- Witness for C9: appending `"fraud"` to a concrete item's summary changes
no other keyword hit and strictly lowers the heuristic score. -/
theorem claim_C9_witness :
    "fraud" ∈ NEGATIVE_SIGNAL ∧
    kwHit (scoringBlob
      { title := "Company quarterly update", url := "", source := "s",
        category := "general", summary := "plain text" }) "fraud" = false ∧
    heuristicScore
        { title := "Company quarterly update", url := "", source := "s",
          category := "general", summary := "plain text" ++ "fraud" } <
      heuristicScore
        { title := "Company quarterly update", url := "", source := "s",
          category := "general", summary := "plain text" } := by
  refine ⟨by decide, by decide, ?_⟩
  exact claim_C9
    { title := "Company quarterly update", url := "", source := "s",
      category := "general", summary := "plain text" }
    "fraud" (by decide) (by decide) (by decide)

/-- C6: two items without a shared non-empty canonical URL are duplicates
exactly when both normalized titles are non-empty and are equal or have
similarity ratio at least 0.93; an empty normalized title never matches. -/
theorem claim_C6 (a b : NewsItem)
    (h : ¬ (canonicalUrl a.url ≠ "" ∧ canonicalUrl b.url ≠ "" ∧
        canonicalUrl a.url = canonicalUrl b.url)) :
    isDuplicate a b = true ↔
      normalizeTitle a.title ≠ [] ∧ normalizeTitle b.title ≠ [] ∧
        (normalizeTitle a.title = normalizeTitle b.title ∨
          93 / 100 ≤ seqRatio (normalizeTitle a.title) (normalizeTitle b.title)) := by
  simp only [isDuplicate, if_neg h]
  by_cases h1 : normalizeTitle a.title = [] ∨ normalizeTitle b.title = []
  · rcases h1 with h1 | h1 <;> simp [h1]
  · obtain ⟨hx, hy⟩ := not_or.mp h1
    by_cases h2 : normalizeTitle a.title = normalizeTitle b.title
    · simp [hx, hy, h2]
    · simp [hx, hy, h2]

/-- Witness for C6 at the spec's examples: the two near-identical NVIDIA
titles merge (their normalized titles coincide), the unrelated pair does not
(ratio 58/95 < 0.93). -/
theorem claim_C6_witness :
    isDuplicate
        { title := "NVIDIA launches new Blackwell inference stack", url := "",
          source := "s", category := "ai" }
        { title := "NVIDIA launches new Blackwell inference stack!", url := "",
          source := "s", category := "ai" } = true ∧
    isDuplicate
        { title := "NVIDIA launches new Blackwell inference stack", url := "",
          source := "s", category := "ai" }
        { title := "NVIDIA launches an entirely different product line", url := "",
          source := "s", category := "ai" } = false := by
  constructor
  · exact (claim_C6
      { title := "NVIDIA launches new Blackwell inference stack", url := "",
        source := "s", category := "ai" }
      { title := "NVIDIA launches new Blackwell inference stack!", url := "",
        source := "s", category := "ai" }
      (by decide)).mpr (by decide)
  · rw [Bool.eq_false_iff]
    intro hcontra
    have hrhs := (claim_C6
      { title := "NVIDIA launches new Blackwell inference stack", url := "",
        source := "s", category := "ai" }
      { title := "NVIDIA launches an entirely different product line", url := "",
        source := "s", category := "ai" }
      (by decide)).mp hcontra
    revert hrhs
    with_unfolding_all decide

/-- On already-trimmed non-empty lines, the suppression filter is exactly the
filter on historical repetition. -/
theorem filterRepeated_eq_spec (lines : List String) (history : List (List Char))
    (h : ∀ l ∈ lines, strTrim l = l ∧ l ≠ "") :
    filterRepeatedLines lines history 2 = suppressedCategorySpec lines history := by
  have hmap : lines.filterMap (fun raw =>
      let line := strTrim raw
      if line = "" ∨ lineIsRepeated (normalizeTextSignature line) history then none
      else some line) =
      lines.filter (fun l => !lineIsRepeated (normalizeTextSignature l) history) := by
    induction lines with
    | nil => rfl
    | cons l rest ih =>
      have hl := h l (List.mem_cons_self _ _)
      have hrest : ∀ x ∈ rest, strTrim x = x ∧ x ≠ "" :=
        fun x hx => h x (List.mem_cons_of_mem _ hx)
      rw [List.filterMap_cons, List.filter_cons]
      by_cases hrep : lineIsRepeated (normalizeTextSignature (strTrim l)) history
      · simp only [hl.1] at hrep ⊢
        simp [hrep, ih hrest, hl.2]
      · simp only [hl.1] at hrep ⊢
        simp [hrep, ih hrest, hl.2]
  unfold filterRepeatedLines suppressedCategorySpec
  rw [hmap]

/-- C7: with a non-empty historical signature set, suppression keeps, per
category and in order, exactly the lines whose normalized signature is not
historically repeated (exact match, ≥ 12-character containment, or ratio
≥ 0.82); a category whose lines would all be dropped keeps its first two
original lines instead; an empty history leaves the analysis unchanged.
(Stated for well-formed analyzer output: trimmed, non-empty lines.) -/
theorem claim_C7 (analysis : AnalysisResult) (recent : List (List Char))
    (h : ∀ l ∈ analysis.breakthroughs ++ analysis.investment_signals ++
        analysis.overlooked_trends ++ analysis.watchlist,
      strTrim l = l ∧ l ≠ "") :
    suppressCrossReportRepeats analysis recent =
      if recent = [] then analysis
      else
        { analysis with
          breakthroughs := suppressedCategorySpec analysis.breakthroughs recent
          investment_signals :=
            suppressedCategorySpec analysis.investment_signals recent
          overlooked_trends :=
            suppressedCategorySpec analysis.overlooked_trends recent
          watchlist := suppressedCategorySpec analysis.watchlist recent } := by
  by_cases hr : recent = []
  · simp [suppressCrossReportRepeats, hr]
  · rw [if_neg hr]
    unfold suppressCrossReportRepeats
    rw [if_neg hr]
    rw [filterRepeated_eq_spec analysis.breakthroughs recent
        (fun l hl => h l (by simp [hl])),
      filterRepeated_eq_spec analysis.investment_signals recent
        (fun l hl => h l (by simp [hl])),
      filterRepeated_eq_spec analysis.overlooked_trends recent
        (fun l hl => h l (by simp [hl])),
      filterRepeated_eq_spec analysis.watchlist recent
        (fun l hl => h l (by simp [hl]))]

/-- Witness for C7 at the spec's instance: with the normalized form of
"同一事件A" in the history, only "新增事件B" survives in its category. -/
theorem claim_C7_witness :
    suppressCrossReportRepeats
        { overview := "o", breakthroughs := ["同一事件A", "新增事件B"] }
        [normalizeTextSignature "同一事件A"] =
      { overview := "o", breakthroughs := ["新增事件B"] } := by
  have h := claim_C7
    { overview := "o", breakthroughs := ["同一事件A", "新增事件B"] }
    [normalizeTextSignature "同一事件A"]
    (by decide)
  rw [if_neg (by decide :
    ¬ ([normalizeTextSignature "同一事件A"] : List (List Char)) = [])] at h
  rw [h]
  show AnalysisResult.mk "o" _ [] [] [] = AnalysisResult.mk "o" ["新增事件B"] [] [] []
  congr 1
  with_unfolding_all decide

/-- `isDuplicate` reads only the `url` and `title` fields. -/
theorem isDuplicate_congr {a a' b b' : NewsItem}
    (ha1 : a.url = a'.url) (ha2 : a.title = a'.title)
    (hb1 : b.url = b'.url) (hb2 : b.title = b'.title) :
    isDuplicate a b = isDuplicate a' b' := by
  simp only [isDuplicate, ha1, ha2, hb1, hb2]

/-- Merging never changes a non-empty survivor url. -/
theorem mergeInto_url {existing item : NewsItem} (h : existing.url ≠ "") :
    (mergeInto existing item).url = existing.url := by
  simp [mergeInto, h]

/-- Merging never changes the survivor title. -/
theorem mergeInto_title (existing item : NewsItem) :
    (mergeInto existing item).title = existing.title := rfl

/-- The scan finds no duplicate exactly when the item duplicates no accepted
unique. -/
theorem mergeFirstDup_none_iff (item : NewsItem) :
    ∀ l : List NewsItem,
      mergeFirstDup item l = none ↔ ∀ a ∈ l, isDuplicate item a = false := by
  intro l
  induction l with
  | nil => simp [mergeFirstDup]
  | cons seen rest ih =>
    by_cases hd : isDuplicate item seen
    · simp [mergeFirstDup, hd]
    · rw [mergeFirstDup, if_neg (by simp [hd])]
      simp only [Option.map_eq_none', ih, List.mem_cons]
      constructor
      · rintro h a (rfl | ha)
        · exact Bool.not_eq_true _ ▸ hd
        · exact h a ha
      · intro h a ha
        exact h a (Or.inr ha)

/-- A successful scan splits the unique list at the first duplicate and
replaces it by the merged record. -/
theorem mergeFirstDup_some (item : NewsItem) :
    ∀ {l l' : List NewsItem}, mergeFirstDup item l = some l' →
      ∃ pre seen post, l = pre ++ seen :: post ∧
        l' = pre ++ mergeInto seen item :: post := by
  intro l
  induction l with
  | nil => intro l' h; cases h
  | cons seen rest ih =>
    intro l' h
    by_cases hd : isDuplicate item seen
    · rw [mergeFirstDup, if_pos hd] at h
      exact ⟨[], seen, rest, rfl, by simpa using h.symm⟩
    · rw [mergeFirstDup, if_neg (by simp [hd])] at h
      obtain ⟨l'', h1, h2⟩ := Option.map_eq_some'.mp h
      obtain ⟨pre, s, post, hl, hl'⟩ := ih h1
      exact ⟨seen :: pre, s, post, by rw [hl]; rfl, by rw [← h2, hl']; rfl⟩

/-- When every incoming item has a non-empty url, the dedupe loop keeps its
accepted-unique list free of empty urls and free of duplicate pairs (later
against earlier, the orientation of the scan). -/
theorem dedupeLoop_invariant :
    ∀ (items unique : List NewsItem) (r : Nat),
      (∀ x ∈ items, x.url ≠ "") →
      (∀ u ∈ unique, u.url ≠ "") →
      unique.Pairwise (fun a b => isDuplicate b a = false) →
      (∀ u ∈ (dedupeLoop unique r items).1, u.url ≠ "") ∧
        (dedupeLoop unique r items).1.Pairwise
          (fun a b => isDuplicate b a = false) := by
  intro items
  induction items with
  | nil => intro unique r _ hu hp; exact ⟨hu, hp⟩
  | cons item rest ih =>
    intro unique r hitems hu hp
    have hitem : item.url ≠ "" := hitems item (List.mem_cons_self _ _)
    have hrest : ∀ x ∈ rest, x.url ≠ "" :=
      fun x hx => hitems x (List.mem_cons_of_mem _ hx)
    cases hm : mergeFirstDup item unique with
    | none =>
      rw [dedupeLoop, hm]
      apply ih (unique ++ [item]) r hrest
      · intro u hu'
        rcases List.mem_append.mp hu' with h | h
        · exact hu u h
        · rw [List.mem_singleton.mp h]; exact hitem
      · rw [List.pairwise_append]
        refine ⟨hp, List.pairwise_singleton _ _, ?_⟩
        intro a ha b hb
        rw [List.mem_singleton.mp hb]
        exact (mergeFirstDup_none_iff item unique).mp hm a ha
    | some unique' =>
      rw [dedupeLoop, hm]
      obtain ⟨pre, seen, post, hl, hl'⟩ := mergeFirstDup_some item hm
      have hseen : seen.url ≠ "" := hu seen (by rw [hl]; simp)
      have hmurl : (mergeInto seen item).url = seen.url := mergeInto_url hseen
      apply ih unique' (r + 1) hrest
      · intro u hu'
        rw [hl'] at hu'
        rcases List.mem_append.mp hu' with h | h
        · exact hu u (by rw [hl]; exact List.mem_append.mpr (Or.inl h))
        · rcases List.mem_cons.mp h with h | h
          · rw [h, hmurl]; exact hseen
          · exact hu u (by rw [hl]; simp [h])
      · rw [hl']
        rw [hl] at hp
        apply pairwise_replace hp
        · intro a hR
          rw [isDuplicate_congr hmurl (mergeInto_title seen item) rfl rfl]
          exact hR
        · intro b hR
          rw [isDuplicate_congr (rfl : b.url = b.url) rfl hmurl
            (mergeInto_title seen item)]
          exact hR

/-- A pass over a list with no duplicate pairs appends it unchanged and
removes nothing. -/
theorem dedupeLoop_id :
    ∀ (U acc : List NewsItem) (r : Nat),
      (∀ b ∈ U, ∀ a ∈ acc, isDuplicate b a = false) →
      U.Pairwise (fun a b => isDuplicate b a = false) →
      dedupeLoop acc r U = (acc ++ U, r) := by
  intro U
  induction U with
  | nil => intro acc r _ _; simp [dedupeLoop]
  | cons u rest ih =>
    intro acc r hcross hpw
    have hnone : mergeFirstDup u acc = none :=
      (mergeFirstDup_none_iff u acc).mpr (hcross u (List.mem_cons_self _ _))
    rw [dedupeLoop, hnone]
    rw [ih (acc ++ [u]) r ?_ (List.pairwise_cons.mp hpw).2]
    · simp
    · intro b hb a ha
      rcases List.mem_append.mp ha with h | h
      · exact hcross b (List.mem_cons_of_mem _ hb) a h
      · rw [List.mem_singleton.mp h]
        exact (List.pairwise_cons.mp hpw).1 b hb

/-- C2 (amended): dedupe is idempotent on every item sequence whose items all
carry a non-empty url — then no merge ever fills a survivor's empty url, the
accepted uniques stay pairwise non-duplicate, and a second pass removes
nothing.  (Unrestricted idempotence fails: a later duplicate can fill a
survivor's empty url with a url canonically equal to another survivor's; see
the counterexample.) -/
theorem claim_C2 (X : List NewsItem) (h : ∀ x ∈ X, x.url ≠ "") :
    (dedupe_items (dedupe_items X).1).1 = (dedupe_items X).1 ∧
    (dedupe_items (dedupe_items X).1).2.duplicates_removed = 0 := by
  have hinv := dedupeLoop_invariant X [] 0 h (by simp) List.Pairwise.nil
  have hid := dedupeLoop_id (dedupeLoop [] 0 X).1 [] 0 (by simp) hinv.2
  constructor
  · show (dedupeLoop [] 0 (dedupeLoop [] 0 X).1).1 = (dedupeLoop [] 0 X).1
    rw [hid]
    simp
  · show (dedupeLoop [] 0 (dedupeLoop [] 0 X).1).2 = 0
    rw [hid]

/-- Witness for C2 (amended) on a concrete all-urls-present batch. -/
theorem claim_C2_witness :
    (∀ x : NewsItem,
      x ∈ [{ title := "Alpha story", url := "https://a.example/x",
             source := "s", category := "g" },
           { title := "Beta story", url := "https://b.example/y",
             source := "s", category := "g" }] → x.url ≠ "") ∧
    (dedupe_items (dedupe_items
        [{ title := "Alpha story", url := "https://a.example/x",
           source := "s", category := "g" },
         { title := "Beta story", url := "https://b.example/y",
           source := "s", category := "g" }]).1).1 =
      (dedupe_items
        [{ title := "Alpha story", url := "https://a.example/x",
           source := "s", category := "g" },
         { title := "Beta story", url := "https://b.example/y",
           source := "s", category := "g" }]).1 := by
  refine ⟨by decide, ?_⟩
  exact (claim_C2
    [{ title := "Alpha story", url := "https://a.example/x",
       source := "s", category := "g" },
     { title := "Beta story", url := "https://b.example/y",
       source := "s", category := "g" }] (by decide)).1

/-- Counterexample to C2 as stated: dedupe is not idempotent in general.  The
first pass merges C (same title as A) into A and fills A's empty url with
C's; A then shares a canonical url with the already-accepted B, so a second
pass merges again: `dedupe(dedupe(X)[0])[0]` has one item, `dedupe(X)[0]`
has two. -/
theorem claim_C2_counterexample :
    (dedupe_items (dedupe_items
        [{ title := "Alpha news story", url := "", source := "s",
           category := "g" },
         { title := "Beta completely different", url := "http://x.com/a",
           source := "s", category := "g" },
         { title := "Alpha news story", url := "http://x.com/a?q=1",
           source := "s", category := "g" }]).1).1 ≠
      (dedupe_items
        [{ title := "Alpha news story", url := "", source := "s",
           category := "g" },
         { title := "Beta completely different", url := "http://x.com/a",
           source := "s", category := "g" },
         { title := "Alpha news story", url := "http://x.com/a?q=1",
           source := "s", category := "g" }]).1 := by
  with_unfolding_all decide

/-- C8: the attribution matcher keeps only candidates with positive score
(+1 per generic token in the blob, +2 per ticker token, +1.5 on a category-
hint match), orders them by descending score with ties by ascending original
rank index (a stable sort, like Python's), and returns at most `limit` of
them as `(rank index, url)` pairs.  In particular, a line with ticker MSFT
and 10-Q language ranks the MSFT/earnings source above an unrelated source
of higher raw score and higher rank. -/
theorem claim_C8 :
    (∀ (text : String) (sources : List (Nat × NewsItem × List Char)) (limit : Nat),
      (findRelatedSourceRefs text sources limit).length ≤ limit ∧
      List.Sorted refKeyLe
        (List.insertionSort refKeyLe (scoredCandidates text sources)) ∧
      (List.insertionSort refKeyLe (scoredCandidates text sources)).Perm
        (scoredCandidates text sources) ∧
      (∀ t ∈ scoredCandidates text sources, 0 < t.1) ∧
      findRelatedSourceRefs text sources limit =
        (if (stripBulletNoise text).data = [] then []
         else
          ((List.insertionSort refKeyLe (scoredCandidates text sources)).take
              limit).map (fun t => (t.2.1, t.2.2)))) ∧
    findRelatedSourceRefs "MSFT filed its 10-Q, guidance strong"
        (sourceEntries
          [{ title := "Solar farm output hits record",
             url := "https://other.example/solar", source := "RSS",
             category := "general", summary := "grid expansion continues",
             score := 9 },
           { title := "MSFT 10-Q filing beats guidance",
             url := "https://sec.example/msft-10q", source := "SEC Filing",
             category := "earnings", summary := "", score := 1 }]) 2 =
      [(2, "https://sec.example/msft-10q"), (1, "https://other.example/solar")] := by
  constructor
  · intro text sources limit
    refine ⟨?_, List.sorted_insertionSort refKeyLe _,
      List.perm_insertionSort refKeyLe _, ?_, ?_⟩
    · unfold findRelatedSourceRefs
      by_cases hb : (stripBulletNoise text).data = []
      · simp [hb]
      · rw [if_neg hb]
        calc (((List.insertionSort refKeyLe (scoredCandidates text sources)).take
              limit).map (fun t => (t.2.1, t.2.2))).length
            = ((List.insertionSort refKeyLe (scoredCandidates text sources)).take
                limit).length := List.length_map _ _
          _ ≤ limit := List.length_take_le limit _
    · intro t ht
      obtain ⟨e, _, hf⟩ := List.mem_filterMap.mp ht
      by_cases hs : 0 < candidateScore (lineTokens (stripBulletNoise text).data)
          (tickerTokens (stripBulletNoise text).data)
          (categoryHint (stripBulletNoise text)) e
      · rw [if_pos hs] at hf
        cases hf
        exact hs
      · rw [if_neg hs] at hf
        cases hf
    · rfl
  · with_unfolding_all decide
